import Mathlib

/-! # Changelog pipe of goreleaser (`pipeline/changelog/changelog.go`)

A shallow embedding of the changelog pipe together with the properties that
its specification states about it.

Conventions of the embedding

* Go strings are Lean `String`s; the string helpers work on the underlying
  list of characters.  Both separators the pipe splits on (`"\n"` and `" "`)
  are single ASCII characters, so the helpers take the separator as a `Char`.
* A Go result pair `(string, error)` is a product `String × Option _`
  (`none` is the `nil` error): the pipe reads the text of such pairs even
  when the error is set, so both components are kept.
* The packages the pipe imports (`regexp`, `internal/git`) are parameters of
  the embedding, bundled in `Env`.
* `World` records the calls made to the version-control adapter and to
  `regexp.Compile`, in the order in which they are made.
-/

namespace changelog

/-! ## The `strings` helpers used by the pipe -/

namespace strings

/-- Fragments of a character list cut after every occurrence of `sep`; each
separator stays at the end of the fragment it closes. -/
def splitAfterChars (sep : Char) : List Char → List (List Char)
  | [] => [[]]
  | c :: cs =>
    if c = sep then [c] :: splitAfterChars sep cs
    else
      match splitAfterChars sep cs with
      | [] => [[c]]
      | x :: xs => (c :: x) :: xs

/-- Fragments of a character list between the occurrences of `sep`; the
separators are dropped. -/
def splitChars (sep : Char) : List Char → List (List Char)
  | [] => [[]]
  | c :: cs =>
    if c = sep then [] :: splitChars sep cs
    else
      match splitChars sep cs with
      | [] => [[c]]
      | x :: xs => (c :: x) :: xs

/-- Go `strings.SplitAfter(s, sep)` for a one-character separator. -/
def SplitAfter (s : String) (sep : Char) : List String :=
  (splitAfterChars sep s.data).map String.mk

/-- Go `strings.Split(s, sep)` for a one-character separator. -/
def Split (s : String) (sep : Char) : List String :=
  (splitChars sep s.data).map String.mk

/-- Go `strings.Join(a, sep)`. -/
def Join : List String → String → String
  | [], _ => ""
  | [a], _ => a
  | a :: b :: rest, sep => a ++ sep ++ Join (b :: rest) sep

end strings

/-! ## Imported packages and the observable state -/

/-- The part of Go package `regexp` the pipe uses. -/
structure RegexpLib where
  /-- Compiled regular expressions (`*regexp.Regexp`). -/
  Regexp : Type
  /-- The function `regexp.Compile`: a compiled expression or the text of the parse error. -/
  Compile : String → Except String Regexp
  /-- The method `(*Regexp).MatchString`. -/
  MatchString : Regexp → String → Bool

/-- The part of package `internal/git` the pipe uses.  Its code is not part of
the file under study, so both functions are parameters. -/
structure GitLib where
  /-- The function `git.Run(args...)`: output text and error. -/
  Run : List String → String × Option String
  /-- The function `git.Clean(output, err)`. -/
  Clean : String × Option String → String × Option String

/-- Everything the pipe imports. -/
structure Env where
  re : RegexpLib
  git : GitLib

/-- The calls made so far, oldest first. -/
structure World where
  /-- Argument lists handed to `git.Run`. -/
  queries : List (List String)
  /-- Patterns handed to `regexp.Compile`. -/
  compiles : List String
  deriving DecidableEq, Repr

/-- Non-nil Go `error` values the pipe can return. -/
inductive Error where
  /-- The value built by `pipeline.Skip(reason)`. -/
  | skip (reason : String)
  /-- An error that came out of package `internal/git`. -/
  | git (msg : String)
  /-- An error that came out of `regexp.Compile`. -/
  | regexp (msg : String)
  deriving DecidableEq, Repr

namespace pipeline

/-- Modelled from the spec: `pipeline.Skip` of package `pipeline`, whose code
is not part of the file under study.  It builds the "skipped, with reason"
outcome, which is distinct from success (`nil`) and from every failure. -/
def Skip (reason : String) : Error := Error.skip reason

end pipeline

/-- The fields of `context.Context` the pipe reads or writes. -/
structure Context where
  /-- The field `ctx.ReleaseNotes`. -/
  ReleaseNotes : String
  /-- The field `ctx.Snapshot`. -/
  Snapshot : Bool
  /-- The field `ctx.Git.CurrentTag`. -/
  CurrentTag : String
  /-- The field `ctx.Config.Changelog.Filters.Exclude`. -/
  Exclude : List String
  deriving DecidableEq, Repr

/-- The struct `ref` of the source. -/
structure ref where
  Tag : Bool
  SHA : String
  deriving DecidableEq, Repr

/-- A call of `git.Run`, recorded in the world. -/
def gitRun (E : Env) (args : List String) (w : World) : (String × Option String) × World :=
  (E.git.Run args, { w with queries := w.queries ++ [args] })

/-- A call of `regexp.Compile`, recorded in the world. -/
def regexpCompile (E : Env) (pattern : String) (w : World) :
    Except String E.re.Regexp × World :=
  (E.re.Compile pattern, { w with compiles := w.compiles ++ [pattern] })

/-! ## The functions of `changelog.go` -/

/-- The function `match` (lines 55-58): the fragments after the first one,
glued back together, are matched against the filter.  The slice `[1:]` is
`drop 1`; `SplitAfter` always returns at least one fragment
(`strings.splitAfterChars_ne_nil`), so the slice is within bounds. -/
def match_ (E : Env) (filter : E.re.Regexp) (line : String) : Bool :=
  let s := strings.Join ((strings.SplitAfter line ' ').drop 1) ""
  E.re.MatchString filter s

/-- The function `remove` (lines 46-53). -/
def remove (E : Env) (filter : E.re.Regexp) : List String → List String
  | [] => []
  | entry :: entries =>
    if !match_ E filter entry then entry :: remove E filter entries
    else remove E filter entries

/-- The function `gitLog` (lines 71-75). -/
def gitLog (E : Env) (refs : List String) (w : World) : (String × Option Error) × World :=
  let args := ["log", "--pretty=oneline", "--abbrev-commit"] ++ refs
  let r := gitRun E args w
  ((r.1.1, r.1.2.map Error.git), r.2)

/-- The function `previous` (lines 77-85). -/
def previous (E : Env) (tag : String) (w : World) : (ref × Option Error) × World :=
  let r1 := gitRun E ["describe", "--tags", "--abbrev=0", tag ++ "^"] w
  let c1 := E.git.Clean r1.1
  match c1.2 with
  | none => (({ Tag := true, SHA := c1.1 }, none), r1.2)
  | some _ =>
    let r2 := gitRun E ["rev-list", "--max-parents=0", "HEAD"] r1.2
    let c2 := E.git.Clean r2.1
    (({ Tag := false, SHA := c2.1 }, c2.2.map Error.git), r2.2)

/-- The function `getChangelog` (lines 60-69). -/
def getChangelog (E : Env) (tag : String) (w : World) : (String × Option Error) × World :=
  let p := previous E tag w
  match p.1.2 with
  | some err => (("", some err), p.2)
  | none =>
    if !p.1.1.Tag then gitLog E [p.1.1.SHA, tag] p.2
    else gitLog E [p.1.1.SHA ++ ".." ++ tag] p.2

/-- The loop of `Run` over the exclusion patterns (lines 35-41): each pattern
is compiled and, when it compiles, applied to the entries kept so far; the
first compile error ends the loop. -/
def excludeLoop (E : Env) :
    List String → List String → World → Except Error (List String) × World
  | [], entries, w => (.ok entries, w)
  | filter :: rest, entries, w =>
    match regexpCompile E filter w with
    | (.error err, w1) => (.error (Error.regexp err), w1)
    | (.ok r, w1) => excludeLoop E rest (remove E r entries) w1

/-- The header `Run` puts in front of the entries. -/
def header : String := "## Changelog\n\n"

/-- The method `Pipe.Run` (lines 23-44): the returned error, the context and
the world after the call. -/
def Pipe.Run (E : Env) (ctx : Context) (w : World) : Option Error × Context × World :=
  if ctx.ReleaseNotes ≠ "" then
    (some (pipeline.Skip "release notes already provided via --release-notes"), ctx, w)
  else if ctx.Snapshot then
    (some (pipeline.Skip "not available for snapshots"), ctx, w)
  else
    let r := getChangelog E ctx.CurrentTag w
    match r.1.2 with
    | some err => (some err, ctx, r.2)
    | none =>
      let entries := strings.Split r.1.1 '\n'
      match excludeLoop E ctx.Exclude entries r.2 with
      | (.error err, w2) => (some err, ctx, w2)
      | (.ok kept, w2) =>
        (none, { ctx with ReleaseNotes := header ++ strings.Join kept "\n" }, w2)

/-! ## The remainder of a log line, as the specification describes it -/

/-- The characters after the first occurrence of `sep`; nothing when `sep`
does not occur. -/
def afterFirst (sep : Char) : List Char → List Char
  | [] => []
  | c :: cs => if c = sep then cs else afterFirst sep cs

/-- The remainder of a log line in the words of the specification: the text
after the leading hash token, that is everything after the first space, with
its spacing untouched; empty when the line has no space. -/
def remainder (line : String) : String := String.mk (afterFirst ' ' line.data)

/-- The entries whose remainder none of the expressions `rs` matches, in the
order of `entries`. -/
def keptBy (E : Env) (rs : List E.re.Regexp) (entries : List String) : List String :=
  entries.filter (fun e => rs.all (fun r => !E.re.MatchString r (remainder e)))

/-! ## A model of Go regular expressions

Package `regexp` belongs to the Go standard library.  Statements about
concrete patterns need its behaviour, so a fragment of its syntax is modelled
here: literal characters, `.`, `^`, `$`, `|`, groups `( )` and the
repetitions `*`, `+`, `?` (each optionally followed by the non-greedy mark
`?`).  Without flags `^` and `$` match only at the beginning and at the end
of the text and `.` matches every character but a newline.  `MatchString`
reports whether the expression matches somewhere in the text.  Patterns that
use `[`, `{`, a backslash or `(?` lie outside the fragment and are rejected
by this model with a message of its own.
-/

namespace goregexp

/-- Abstract syntax of the modelled fragment. -/
inductive Re where
  | empty
  | lit (c : Char)
  | any
  | bol
  | eol
  | cat (a b : Re)
  | alt (a b : Re)
  | star (a : Re)
  deriving Repr, DecidableEq

/-- Iteration of a matcher `m`; an iteration that consumes nothing is cut
off, which bounds the number of rounds by the length of the text. -/
def starLoop (m : Bool → List Char → (Bool → List Char → Bool) → Bool) :
    Nat → Bool → List Char → (Bool → List Char → Bool) → Bool
  | 0, b, s, k => k b s
  | n + 1, b, s, k =>
    k b s || m b s (fun b1 s1 => decide (s1.length < s.length) && starLoop m n b1 s1 k)

/-- Backtracking matcher in continuation style: `matchRe r b s k` holds when
`r` matches a prefix of `s` such that `k` accepts the rest.  The flag `b`
says whether `s` starts at the beginning of the text. -/
def matchRe : Re → Bool → List Char → (Bool → List Char → Bool) → Bool
  | .empty, b, s, k => k b s
  | .lit c, _, s, k =>
    match s with
    | [] => false
    | d :: t => d == c && k false t
  | .any, _, s, k =>
    match s with
    | [] => false
    | d :: t => d != '\n' && k false t
  | .bol, b, s, k => b && k b s
  | .eol, b, s, k => s.isEmpty && k b s
  | .cat x y, b, s, k => matchRe x b s (fun b1 s1 => matchRe y b1 s1 k)
  | .alt x y, b, s, k => matchRe x b s k || matchRe y b s k
  | .star x, b, s, k => starLoop (matchRe x) s.length b s k

/-- Unanchored search: a match may begin at any position of the text. -/
def searchFrom (r : Re) : Bool → List Char → Bool
  | b, [] => matchRe r b [] (fun _ _ => true)
  | b, c :: cs => matchRe r b (c :: cs) (fun _ _ => true) || searchFrom r false cs

/-- What the parser saw last: nothing that can be repeated, an item that can
be repeated, or a repetition operator (with its text, and whether a
non-greedy mark may still follow). -/
inductive Last where
  | start
  | item
  | rep (txt : List Char) (lazyOk : Bool)

/-- Concatenation of the items of a sequence, given in reverse order. -/
def mkCat : List Re → Re
  | [] => .empty
  | [r] => r
  | r :: rs => .cat (mkCat rs) r

/-- Alternation of the finished alternatives (in reverse order) and the
current sequence. -/
def mkAlt (alts : List Re) (cur : List Re) : Re :=
  alts.foldl (fun acc a => .alt a acc) (mkCat cur)

/-- The expression built by a repetition operator. -/
def applyOp (op : Char) (r : Re) : Re :=
  if op = '*' then .star r
  else if op = '+' then .cat r (.star r)
  else .alt r .empty

/-- The text of a repetition operator, with its non-greedy mark if present. -/
def opText (op : Char) (rest : List Char) : List Char :=
  match rest with
  | '?' :: _ => [op, '?']
  | _ => [op]

/-- The text of a parse error. -/
def parseError (code : String) (expr : List Char) : String :=
  "error parsing regexp: " ++ code ++ ": `" ++ String.mk expr ++ "`"

/-- The message of this model for a pattern outside the fragment. -/
def outside : String := "pattern outside the modelled fragment"

/-- One pass over the pattern with a stack of the enclosing groups. -/
def parseLoop (whole : List Char) :
    List (List Re × List Re) → List Re → List Re → Last → List Char → Except String Re
  | [], alts, cur, _, [] => .ok (mkAlt alts cur)
  | _ :: _, _, _, _, [] => .error (parseError "missing closing )" whole)
  | stack, alts, cur, last, c :: rest =>
    if c = '(' then
      match rest with
      | '?' :: _ => .error outside
      | _ => parseLoop whole ((alts, cur) :: stack) [] [] .start rest
    else if c = ')' then
      match stack with
      | [] => .error (parseError "unexpected )" whole)
      | (alts0, cur0) :: stack0 =>
        parseLoop whole stack0 alts0 (mkAlt alts cur :: cur0) .item rest
    else if c = '|' then parseLoop whole stack (mkCat cur :: alts) [] .start rest
    else if c = '*' ∨ c = '+' ∨ c = '?' then
      match last, cur with
      | .rep txt true, _ =>
        if c = '?' then parseLoop whole stack alts cur (.rep (txt ++ [c]) false) rest
        else .error (parseError "invalid nested repetition operator" (txt ++ opText c rest))
      | .rep txt false, _ =>
        .error (parseError "invalid nested repetition operator" (txt ++ opText c rest))
      | .item, r :: cur0 =>
        parseLoop whole stack alts (applyOp c r :: cur0) (.rep [c] true) rest
      | _, _ => .error (parseError "missing argument to repetition operator" (opText c rest))
    else if c = '[' ∨ c = '{' ∨ c = '\\' then .error outside
    else if c = '.' then parseLoop whole stack alts (.any :: cur) .item rest
    else if c = '^' then parseLoop whole stack alts (.bol :: cur) .item rest
    else if c = '$' then parseLoop whole stack alts (.eol :: cur) .item rest
    else parseLoop whole stack alts (.lit c :: cur) .item rest

/-- Model of `regexp.Compile`. -/
def Compile (pattern : String) : Except String Re :=
  parseLoop pattern.data [] [] [] .start pattern.data

/-- Model of `(*Regexp).MatchString`. -/
def MatchString (r : Re) (s : String) : Bool := searchFrom r true s.data

end goregexp

/-- The modelled fragment of package `regexp`. -/
def goRegexp : RegexpLib where
  Regexp := goregexp.Re
  Compile := goregexp.Compile
  MatchString := goregexp.MatchString

/-! ## A sample repository

A version-control adapter for a repository with the tags `v1.1.0` and
`v1.2.0` (two commits apart) and a first tag `v0.1.0` that has no tag before
it.  It serves as the concrete input of the examples. -/

/-- The text up to the first newline. -/
def firstLine : List Char → List Char
  | [] => []
  | c :: cs => if c = '\n' then [] else c :: firstLine cs

/-- Answers of the sample repository. -/
def sampleRun (args : List String) : String × Option String :=
  if args = ["describe", "--tags", "--abbrev=0", "v1.2.0^"] then ("v1.1.0\n", none)
  else if args = ["log", "--pretty=oneline", "--abbrev-commit", "v1.1.0..v1.2.0"] then
    ("aaa111 feat: add X\nbbb222 WIP: tmp", none)
  else if args = ["rev-list", "--max-parents=0", "HEAD"] then ("0a1b2c3\n", none)
  else if args = ["log", "--pretty=oneline", "--abbrev-commit", "0a1b2c3", "v0.1.0"] then
    ("a1 msg one\nb2 msg two", none)
  else ("", some "fatal: No names found, cannot describe anything.\n")

/-- The sample adapter: `Clean` keeps the first line of the output and hands
the error on. -/
def sampleGit : GitLib where
  Run := sampleRun
  Clean := fun r => (String.mk (firstLine r.1.data), r.2)

/-- The sample repository together with the modelled regular expressions. -/
def sampleEnv : Env where
  re := goRegexp
  git := sampleGit

/-- The world before any call. -/
def World.init : World := { queries := [], compiles := [] }

/-- Arguments of the prior-tag lookup of `previous` for `tag`. -/
def describeArgs (tag : String) : List String :=
  ["describe", "--tags", "--abbrev=0", tag ++ "^"]

/-- Arguments of the root-commit query of `previous`. -/
def rootArgs : List String := ["rev-list", "--max-parents=0", "HEAD"]

/-- Arguments `gitLog` hands to `git.Run` for the references `refs`. -/
def logArgs (refs : List String) : List String :=
  ["log", "--pretty=oneline", "--abbrev-commit"] ++ refs

/-- A context of the first release `v0.1.0` of the sample repository, without
exclusion patterns. -/
def firstCtx : Context :=
  { ReleaseNotes := "", Snapshot := false, CurrentTag := "v0.1.0", Exclude := [] }

/-- A context of the first release with an invalid pattern between two valid
ones. -/
def badCtx : Context :=
  { ReleaseNotes := "", Snapshot := false, CurrentTag := "v0.1.0",
    Exclude := ["one", "(", "two"] }

/-- A context whose release notes were supplied beforehand. -/
def notedCtx : Context :=
  { ReleaseNotes := "notes from a file", Snapshot := false, CurrentTag := "v1.2.0",
    Exclude := ["("] }

/-- The log line of the tokenization example. -/
def wipLine : String := "abc123 fix: resolve WIP issue"

/-- The compiled form of the pattern `^WIP`. -/
def reAnchoredWIP : goregexp.Re :=
  .cat (.cat (.cat .bol (.lit 'W')) (.lit 'I')) (.lit 'P')

/-- A release context of the sample repository: tag `v1.2.0`, no release
notes yet, not a snapshot, one exclusion pattern. -/
def sampleCtx : Context :=
  { ReleaseNotes := "", Snapshot := false, CurrentTag := "v1.2.0", Exclude := ["^WIP"] }

/-- The log of the sample repository between `v1.1.0` and `v1.2.0`. -/
def sampleLog : String := "aaa111 feat: add X\nbbb222 WIP: tmp"

/-! ## Bounds-checked slicing -/

/-- The Go slice expression `s[lo:]`: the elements from index `lo` on, and a
run-time panic (`none`) when `lo` exceeds the length of `s`. -/
def sliceFrom {α : Type} (lo : Nat) (s : List α) : Option (List α) :=
  if lo ≤ s.length then some (s.drop lo) else none

/-- The function `match` (lines 55-58) with the bounds check of the slice
`[1:]` made explicit: `none` stands for the panic of an out-of-range slice. -/
def matchChecked (E : Env) (filter : E.re.Regexp) (line : String) : Option Bool :=
  match sliceFrom 1 (strings.SplitAfter line ' ') with
  | none => none
  | some parts => some (E.re.MatchString filter (strings.Join parts ""))

/-! ## Validate all patterns, then apply all of them

The variant of `Run` the design notes of the specification ask for, written
from their words: every pattern is compiled first, the first compile error
aborts, and only then the exclusions are applied. -/

/-- The validation pass: compile every pattern in order and stop at the first
one that does not compile. -/
def validateAll (E : Env) : List String → World → Except Error (List E.re.Regexp) × World
  | [], w => (.ok [], w)
  | filter :: rest, w =>
    match regexpCompile E filter w with
    | (.error err, w1) => (.error (Error.regexp err), w1)
    | (.ok r, w1) =>
      match validateAll E rest w1 with
      | (.error err, w2) => (.error err, w2)
      | (.ok rs, w2) => (.ok (r :: rs), w2)

/-- The application pass: apply the compiled patterns one after the other. -/
def applyAll (E : Env) : List E.re.Regexp → List String → List String
  | [], entries => entries
  | r :: rs, entries => applyAll E rs (remove E r entries)

/-- The validate-all-then-apply-all variant of `Pipe.Run`. -/
def Pipe.RunValidateFirst (E : Env) (ctx : Context) (w : World) :
    Option Error × Context × World :=
  if ctx.ReleaseNotes ≠ "" then
    (some (pipeline.Skip "release notes already provided via --release-notes"), ctx, w)
  else if ctx.Snapshot then
    (some (pipeline.Skip "not available for snapshots"), ctx, w)
  else
    let r := getChangelog E ctx.CurrentTag w
    match r.1.2 with
    | some err => (some err, ctx, r.2)
    | none =>
      match validateAll E ctx.Exclude r.2 with
      | (.error err, w2) => (some err, ctx, w2)
      | (.ok rs, w2) =>
        (none,
          { ctx with ReleaseNotes :=
              header ++ strings.Join (applyAll E rs (strings.Split r.1.1 '\n')) "\n" },
          w2)

/-! ## The contract of the version-control adapter -/

/-- Modelled from the spec: the function `git.Run` of package `internal/git`,
whose code is not part of the file under study, "returns either text output
or a failure"; a query that fails carries no text. -/
def GitLib.TextOrFailure (g : GitLib) : Prop :=
  ∀ args : List String, (g.Run args).2 ≠ none → (g.Run args).1 = ""

/-! ## Further sample adapters -/

/-- An adapter of a repository in which the tag before `v1.2.0` is found and
every other query fails. -/
def brokenLogGit : GitLib where
  Run := fun args =>
    if args = ["describe", "--tags", "--abbrev=0", "v1.2.0^"] then ("v1.1.0\n", none)
    else ("", some "fatal: bad revision\n")
  Clean := fun r => (String.mk (firstLine r.1.data), r.2)

/-- The environment of `brokenLogGit`. -/
def brokenLogEnv : Env where
  re := goRegexp
  git := brokenLogGit

/-- An adapter outside of any repository: every query fails. -/
def noRepoGit : GitLib where
  Run := fun _ => ("", some "fatal: not a git repository\n")
  Clean := fun r => (String.mk (firstLine r.1.data), r.2)

/-- The environment of `noRepoGit`. -/
def noRepoEnv : Env where
  re := goRegexp
  git := noRepoGit

/-- The sample release with two patterns that together exclude every entry
of the log. -/
def allExcludedCtx : Context :=
  { ReleaseNotes := "", Snapshot := false, CurrentTag := "v1.2.0",
    Exclude := ["feat", "^WIP"] }

/-- The sample release without exclusion patterns. -/
def noPatternCtx : Context :=
  { ReleaseNotes := "", Snapshot := false, CurrentTag := "v1.2.0", Exclude := [] }

/-- The compiled form of the pattern `feat`. -/
def reFeat : goregexp.Re :=
  .cat (.cat (.cat (.lit 'f') (.lit 'e')) (.lit 'a')) (.lit 't')

/-! ## Error texts and the patterns they quote -/

/-- Whether the characters `pat` occur as a contiguous run in a text. -/
def occursIn (pat : List Char) : List Char → Bool
  | [] => pat.isEmpty
  | c :: cs => pat.isPrefixOf (c :: cs) || occursIn pat cs

/-- Whether an error text names a pattern: the pattern occurs in the text. -/
def names (msg : String) (pattern : String) : Bool := occursIn pattern.data msg.data

/-- The parse error of a doubled star, which quotes the two operators only. -/
def nestedStarMsg : String :=
  "error parsing regexp: invalid nested repetition operator: `**`"

/-- A context of the first release whose single pattern `a**` does not
compile. -/
def nestedStarCtx : Context :=
  { ReleaseNotes := "", Snapshot := false, CurrentTag := "v0.1.0", Exclude := ["a**"] }

/-- Whether pattern `p` excludes the single line `line`: `remove` applied to
the one-line list leaves nothing.  `none` when the pattern does not compile. -/
def excludes (p : String) (line : String) : Option Bool :=
  match sampleEnv.re.Compile p with
  | .ok r => some (remove sampleEnv r [line]).isEmpty
  | .error _ => none

end changelog


namespace changelog

/-! ## Helper lemmas -/

namespace strings

theorem splitAfterChars_ne_nil (sep : Char) (l : List Char) : splitAfterChars sep l ≠ [] := by
  cases l with
  | nil => simp [splitAfterChars]
  | cons c cs =>
    unfold splitAfterChars
    split
    · simp
    · split <;> simp

theorem splitChars_ne_nil (sep : Char) (l : List Char) : splitChars sep l ≠ [] := by
  cases l with
  | nil => simp [splitChars]
  | cons c cs =>
    unfold splitChars
    split
    · simp
    · split <;> simp

/-- Dropping the first fragment of `splitAfterChars` and gluing the others
gives the text after the first separator. -/
theorem flatten_drop_splitAfterChars (sep : Char) (l : List Char) :
    ((splitAfterChars sep l).drop 1).flatten = afterFirst sep l := by
  induction l with
  | nil => simp [splitAfterChars, afterFirst]
  | cons c cs ih =>
    have hflat : ∀ m : List Char, (splitAfterChars sep m).flatten = m := by
      intro m
      induction m with
      | nil => simp [splitAfterChars]
      | cons d ds ihd =>
        unfold splitAfterChars
        split
        · simp [ihd]
        · split
          · next h => exact absurd h (splitAfterChars_ne_nil sep ds)
          · next x xs h => rw [h] at ihd; simpa using ihd
    unfold splitAfterChars afterFirst
    split
    · simpa using hflat cs
    · split
      · next h => exact absurd h (splitAfterChars_ne_nil sep cs)
      · next x xs h => rw [h] at ih; simpa using ih

/-- Joining with the empty separator concatenates. -/
theorem Join_empty (l : List (List Char)) : Join (l.map String.mk) "" = String.mk l.flatten := by
  induction l with
  | nil => rfl
  | cons a t ih =>
    cases t with
    | nil => simp [Join]
    | cons b t2 =>
      simp only [List.map_cons, Join] at ih ⊢
      rw [ih]
      apply String.ext
      simp [String.data_append]

/-- The text of `Join` is the lists of characters of the elements with the
separator between consecutive elements. -/
theorem Join_data (l : List String) (sep : String) :
    (Join l sep).data = List.intercalate sep.data (l.map String.data) := by
  induction l with
  | nil => rfl
  | cons a t ih =>
    cases t with
    | nil => simp [Join, List.intercalate]
    | cons b t2 =>
      simp only [Join, String.data_append, ih]
      simp [List.intercalate, List.intersperse]

end strings

/-- The text `match` hands to the filter is the remainder of the line. -/
theorem match_eq_remainder (E : Env) (filter : E.re.Regexp) (line : String) :
    match_ E filter line = E.re.MatchString filter (remainder line) := by
  unfold match_ remainder strings.SplitAfter
  simp only []
  rw [← List.map_drop, strings.Join_empty, strings.flatten_drop_splitAfterChars]

theorem afterFirst_append (sep : Char) (h rest : List Char) (hh : sep ∉ h) :
    afterFirst sep (h ++ sep :: rest) = rest := by
  induction h with
  | nil => simp [afterFirst]
  | cons c cs ih =>
    simp only [List.mem_cons, not_or] at hh
    have hc : c ≠ sep := fun e => hh.1 e.symm
    simp [afterFirst, hc, ih hh.2]

theorem afterFirst_of_not_mem (sep : Char) (l : List Char) (hl : sep ∉ l) :
    afterFirst sep l = [] := by
  induction l with
  | nil => rfl
  | cons c cs ih =>
    simp only [List.mem_cons, not_or] at hl
    have hc : c ≠ sep := fun e => hl.1 e.symm
    simp [afterFirst, hc, ih hl.2]

theorem remove_eq_filter (E : Env) (filter : E.re.Regexp) (entries : List String) :
    remove E filter entries
      = entries.filter (fun e => !E.re.MatchString filter (remainder e)) := by
  induction entries with
  | nil => rfl
  | cons e es ih =>
    unfold remove
    rw [ih, match_eq_remainder]
    by_cases h : E.re.MatchString filter (remainder e) = true <;> simp [h]

/-- The patterns handed to `regexp.Compile` when all of them compile. -/
theorem excludeLoop_ok (E : Env) (pats : List String) (rs : List E.re.Regexp)
    (hc : List.Forall₂ (fun p r => E.re.Compile p = .ok r) pats rs)
    (entries : List String) (w : World) :
    excludeLoop E pats entries w
      = (.ok (keptBy E rs entries), { w with compiles := w.compiles ++ pats }) := by
  induction hc generalizing entries w with
  | nil => simp [excludeLoop, keptBy]
  | cons hpr _ ih =>
    unfold excludeLoop regexpCompile
    simp only [hpr]
    rw [ih, remove_eq_filter]
    simp only [keptBy, List.filter_filter, List.all_cons, List.append_assoc, List.singleton_append]
    congr 2
    exact List.filter_congr (fun e _ => Bool.and_comm _ _)

/-- The loop stops at the first pattern that does not compile. -/
theorem excludeLoop_error (E : Env) (pre : List String) (bad : String) (post : List String)
    (msg : String) (hpre : ∀ p ∈ pre, ∃ r, E.re.Compile p = .ok r)
    (hbad : E.re.Compile bad = .error msg) (entries : List String) (w : World) :
    excludeLoop E (pre ++ bad :: post) entries w
      = (.error (Error.regexp msg), { w with compiles := w.compiles ++ pre ++ [bad] }) := by
  induction pre generalizing entries w with
  | nil =>
    simp [excludeLoop, regexpCompile, hbad]
  | cons p ps ih =>
    obtain ⟨r, hr⟩ := hpre p (List.mem_cons_self _ _)
    have hps : ∀ q ∈ ps, ∃ r, E.re.Compile q = .ok r :=
      fun q hq => hpre q (List.mem_cons_of_mem _ hq)
    rw [List.cons_append]
    unfold excludeLoop regexpCompile
    simp only [hr]
    rw [ih hps]
    simp

/-- A list with a pattern that does not compile splits at the first such
pattern. -/
theorem first_invalid (E : Env) (pats : List String)
    (h : ∃ p ∈ pats, ∃ msg, E.re.Compile p = .error msg) :
    ∃ pre bad post msg, pats = pre ++ bad :: post
      ∧ (∀ p ∈ pre, ∃ r, E.re.Compile p = .ok r) ∧ E.re.Compile bad = .error msg := by
  induction pats with
  | nil => obtain ⟨p, hp, _⟩ := h; simp at hp
  | cons a t ih =>
    cases ha : E.re.Compile a with
    | error msg => exact ⟨[], a, t, msg, rfl, by simp, ha⟩
    | ok r =>
      obtain ⟨p, hp, msg, hmsg⟩ := h
      have hpt : p ∈ t := by
        rcases List.mem_cons.mp hp with h1 | h1
        · subst h1; rw [ha] at hmsg; cases hmsg
        · exact h1
      obtain ⟨pre, bad, post, m, hsplit, hpre, hbad⟩ := ih ⟨p, hpt, msg, hmsg⟩
      refine ⟨a :: pre, bad, post, m, by simp [hsplit], ?_, hbad⟩
      intro q hq
      rcases List.mem_cons.mp hq with h1 | h1
      · subst h1; exact ⟨r, ha⟩
      · exact hpre q h1

/-- Every list of patterns either compiles as a whole or has a first pattern
that does not compile. -/
theorem compile_all_or_invalid (E : Env) (pats : List String) :
    (∃ rs, List.Forall₂ (fun p r => E.re.Compile p = .ok r) pats rs)
    ∨ ∃ p ∈ pats, ∃ msg, E.re.Compile p = .error msg := by
  induction pats with
  | nil => exact Or.inl ⟨[], List.Forall₂.nil⟩
  | cons a t ih =>
    cases ha : E.re.Compile a with
    | error msg => exact Or.inr ⟨a, List.mem_cons_self _ _, msg, ha⟩
    | ok r =>
      rcases ih with ⟨rs, hrs⟩ | ⟨p, hp, msg, hmsg⟩
      · exact Or.inl ⟨r :: rs, List.Forall₂.cons ha hrs⟩
      · exact Or.inr ⟨p, List.mem_cons_of_mem _ hp, msg, hmsg⟩

/-! ## Entry filter -/

/-- C1: when the log was fetched and every exclusion pattern compiles, the
entries the loop of `Run` keeps are exactly the entries of the log, in their
order, whose remainder is matched by none of the patterns; they are what
`Run` writes, and an entry is dropped if and only if some pattern matches its
remainder. -/
theorem C1_kept_entries (E : Env) (ctx : Context) (w : World) (log : String)
    (rs : List E.re.Regexp)
    (hnotes : ctx.ReleaseNotes = "") (hsnap : ctx.Snapshot = false)
    (hlog : (getChangelog E ctx.CurrentTag w).1 = (log, none))
    (hc : List.Forall₂ (fun p r => E.re.Compile p = .ok r) ctx.Exclude rs) :
    (excludeLoop E ctx.Exclude (strings.Split log '\n') (getChangelog E ctx.CurrentTag w).2).1
        = .ok (keptBy E rs (strings.Split log '\n'))
    ∧ (Pipe.Run E ctx w).1 = none
    ∧ (Pipe.Run E ctx w).2.1.ReleaseNotes
        = header ++ strings.Join (keptBy E rs (strings.Split log '\n')) "\n"
    ∧ ∀ e ∈ strings.Split log '\n',
        (e ∉ keptBy E rs (strings.Split log '\n')
          ↔ ∃ r ∈ rs, E.re.MatchString r (remainder e) = true) := by
  have hloop := excludeLoop_ok E ctx.Exclude rs hc (strings.Split log '\n')
    (getChangelog E ctx.CurrentTag w).2
  have h1 : (getChangelog E ctx.CurrentTag w).1.1 = log := by rw [hlog]
  have h2 : (getChangelog E ctx.CurrentTag w).1.2 = none := by rw [hlog]
  refine ⟨by rw [hloop], ?_, ?_, ?_⟩
  · unfold Pipe.Run
    simp [hnotes, hsnap, h1, h2, hloop]
  · unfold Pipe.Run
    simp [hnotes, hsnap, h1, h2, hloop]
  · intro e he
    simp only [keptBy, List.mem_filter, List.all_eq_true, he, true_and]
    constructor
    · intro hne
      by_contra hcon
      apply hne
      intro r hr
      cases hm : E.re.MatchString r (remainder e) with
      | false => rfl
      | true => exact absurd ⟨r, hr, hm⟩ hcon
    · rintro ⟨r, hr, hm⟩ hall
      have := hall r hr
      simp [hm] at this

/-- C1 at the sample repository with the pattern `^WIP`. -/
theorem C1_kept_entries_witness :
    (sampleCtx.ReleaseNotes = "" ∧ sampleCtx.Snapshot = false
      ∧ (getChangelog sampleEnv sampleCtx.CurrentTag World.init).1 = (sampleLog, none))
    ∧ (Pipe.Run sampleEnv sampleCtx World.init).2.1.ReleaseNotes
        = header ++ strings.Join
            (keptBy sampleEnv [reAnchoredWIP] (strings.Split sampleLog '\n')) "\n" :=
  ⟨⟨rfl, rfl, rfl⟩,
    (C1_kept_entries sampleEnv sampleCtx World.init sampleLog [reAnchoredWIP] rfl rfl rfl
      (List.Forall₂.cons rfl List.Forall₂.nil)).2.2.1⟩

/-- C2: `match` applies the filter to the remainder of the line.  The
remainder is what follows the first space, spacing untouched; it is empty
when the line has no space; and for a line `h ++ " " ++ rest` with no space
in `h` it is `rest`, so the result does not depend on `h`. -/
theorem C2_match_remainder (E : Env) (filter : E.re.Regexp) (line : String) :
    match_ E filter line = E.re.MatchString filter (remainder line)
    ∧ (' ' ∈ line.data →
        ∃ h : List Char, ' ' ∉ h ∧ line.data = h ++ ' ' :: (remainder line).data)
    ∧ (' ' ∉ line.data → remainder line = "")
    ∧ ∀ h rest : String, ' ' ∉ h.data → line = h ++ " " ++ rest →
        remainder line = rest ∧ match_ E filter line = E.re.MatchString filter rest := by
  refine ⟨match_eq_remainder E filter line, ?_, ?_, ?_⟩
  · intro hmem
    have key : ∀ l : List Char, ' ' ∈ l →
        ∃ h : List Char, ' ' ∉ h ∧ l = h ++ ' ' :: afterFirst ' ' l := by
      intro l
      induction l with
      | nil => intro hm; simp at hm
      | cons c cs ih =>
        intro hm
        by_cases hc : c = ' '
        · exact ⟨[], by simp, by simp [afterFirst, hc]⟩
        · have hcs : ' ' ∈ cs := by
            rcases List.mem_cons.mp hm with h | h
            · exact absurd h.symm hc
            · exact h
          obtain ⟨h, hh, he⟩ := ih hcs
          refine ⟨c :: h, ?_, ?_⟩
          · simp only [List.mem_cons, not_or]
            exact ⟨fun e => hc e.symm, hh⟩
          · simp only [afterFirst, hc, if_false, List.cons_append]
            rw [← he]
    exact key line.data hmem
  · intro hno
    unfold remainder
    rw [afterFirst_of_not_mem _ _ hno]
  · intro h rest hh hline
    have hrem : remainder line = rest := by
      subst hline
      unfold remainder
      have : (h ++ " " ++ rest).data = h.data ++ ' ' :: rest.data := by
        simp [String.data_append]
      rw [this, afterFirst_append _ _ _ hh]
    exact ⟨hrem, by rw [match_eq_remainder, hrem]⟩

/-- C3, as the specification states it, fails: the pattern `^WIP` does not
exclude the line `abc123 fix: resolve WIP issue`. -/
theorem C3_counterexample :
    ¬ (excludes "^WIP" wipLine = some true ∧ excludes "abc123" wipLine = some false) := by
  decide

/-- C3 amended: the remainder of `abc123 fix: resolve WIP issue` is
`fix: resolve WIP issue`; the pattern `^WIP` does not match it and `remove`
keeps the line; the pattern `WIP` matches it and `remove` drops the line; the
pattern `abc123` does not exclude the line. -/
theorem C3_wip_line :
    remainder wipLine = "fix: resolve WIP issue"
    ∧ excludes "^WIP" wipLine = some false
    ∧ excludes "WIP" wipLine = some true
    ∧ excludes "abc123" wipLine = some false := by
  decide

/-! ## Reference resolution and log retrieval -/

/-- C4: when the prior-tag lookup succeeds (the cleaned `describe` query on
`tag^` carries no error), `previous` returns no error and a reference with
`Tag = true` whose `SHA` is the cleaned output of that lookup; the lookup is
the only query issued, so the root-commit query is not issued. -/
theorem C4_previous_prior_tag (E : Env) (tag : String) (w : World)
    (h : (E.git.Clean (E.git.Run (describeArgs tag))).2 = none) :
    previous E tag w
      = (({ Tag := true, SHA := (E.git.Clean (E.git.Run (describeArgs tag))).1 }, none),
         { w with queries := w.queries ++ [describeArgs tag] })
    ∧ rootArgs ∉ (previous E tag w).2.queries.drop w.queries.length := by
  have hp : previous E tag w
      = (({ Tag := true, SHA := (E.git.Clean (E.git.Run (describeArgs tag))).1 }, none),
         { w with queries := w.queries ++ [describeArgs tag] }) := by
    unfold describeArgs at h ⊢
    unfold previous gitRun
    simp only [h]
  refine ⟨hp, ?_⟩
  rw [hp]
  simp [describeArgs, rootArgs]

/-- C4 at the tag `v1.2.0` of the sample repository. -/
theorem C4_previous_prior_tag_witness :
    (sampleEnv.git.Clean (sampleEnv.git.Run (describeArgs "v1.2.0"))).2 = none
    ∧ previous sampleEnv "v1.2.0" World.init
        = (({ Tag := true, SHA := "v1.1.0" }, none),
           { queries := [describeArgs "v1.2.0"], compiles := [] }) :=
  ⟨rfl, (C4_previous_prior_tag sampleEnv "v1.2.0" World.init rfl).1⟩

/-- C5: when the prior-tag lookup fails and the root-commit query succeeds,
`previous` returns no error and a reference with `Tag = false` whose `SHA` is
the cleaned output of the root-commit query; the error of the first lookup is
dropped. -/
theorem C5_previous_root_commit (E : Env) (tag : String) (w : World) (e1 : String)
    (h1 : (E.git.Clean (E.git.Run (describeArgs tag))).2 = some e1)
    (h2 : (E.git.Clean (E.git.Run rootArgs)).2 = none) :
    previous E tag w
      = (({ Tag := false, SHA := (E.git.Clean (E.git.Run rootArgs)).1 }, none),
         { w with queries := w.queries ++ [describeArgs tag, rootArgs] }) := by
  unfold describeArgs at h1 ⊢
  unfold rootArgs at h2 ⊢
  unfold previous gitRun
  simp [h1, h2]

/-- C5 at the first tag `v0.1.0` of the sample repository. -/
theorem C5_previous_root_commit_witness :
    ((sampleEnv.git.Clean (sampleEnv.git.Run (describeArgs "v0.1.0"))).2
        = some "fatal: No names found, cannot describe anything.\n"
      ∧ (sampleEnv.git.Clean (sampleEnv.git.Run rootArgs)).2 = none)
    ∧ previous sampleEnv "v0.1.0" World.init
        = (({ Tag := false, SHA := "0a1b2c3" }, none),
           { queries := [describeArgs "v0.1.0", rootArgs], compiles := [] }) :=
  ⟨⟨rfl, rfl⟩,
    C5_previous_root_commit sampleEnv "v0.1.0" World.init
      "fatal: No names found, cannot describe anything.\n" rfl rfl⟩

/-- C6: when `previous` resolves a reference `prev` without error,
`getChangelog` issues after the resolution exactly one more query, a `log`
query with `--pretty=oneline --abbrev-commit` followed by the single token
`prev.SHA..tag` when `prev.Tag` is set and by the two arguments `prev.SHA`
and `tag` otherwise; what it returns is the answer to that query. -/
theorem C6_log_query (E : Env) (tag : String) (w : World) (prev : ref)
    (h : (previous E tag w).1 = (prev, none)) :
    (getChangelog E tag w).2.queries
        = (previous E tag w).2.queries
          ++ [logArgs (if prev.Tag then [prev.SHA ++ ".." ++ tag] else [prev.SHA, tag])]
    ∧ (getChangelog E tag w).2.compiles = (previous E tag w).2.compiles
    ∧ (getChangelog E tag w).1
        = ((E.git.Run
              (logArgs (if prev.Tag then [prev.SHA ++ ".." ++ tag] else [prev.SHA, tag]))).1,
           (E.git.Run
              (logArgs (if prev.Tag then [prev.SHA ++ ".." ++ tag] else [prev.SHA, tag]))).2.map
             Error.git) := by
  have h1 : (previous E tag w).1.1 = prev := by rw [h]
  have h2 : (previous E tag w).1.2 = none := by rw [h]
  unfold getChangelog
  simp only [h1, h2]
  cases hT : prev.Tag <;> simp [gitLog, gitRun, logArgs]

/-- C6 at the tag `v1.2.0` of the sample repository (a prior tag exists). -/
theorem C6_log_query_witness :
    (previous sampleEnv "v1.2.0" World.init).1 = ({ Tag := true, SHA := "v1.1.0" }, none)
    ∧ (getChangelog sampleEnv "v1.2.0" World.init).2.queries
        = [describeArgs "v1.2.0",
           ["log", "--pretty=oneline", "--abbrev-commit", "v1.1.0..v1.2.0"]] :=
  ⟨rfl, (C6_log_query sampleEnv "v1.2.0" World.init { Tag := true, SHA := "v1.1.0" } rfl).1⟩

/-! ## Formatting and the outcome of `Run` -/

/-- C7: a `Run` that is not skipped, fetched the log and was left with the
entries `kept` by its loop succeeds and writes as release notes the header
`## Changelog`, an empty line, and the entries with one newline between
consecutive entries and nothing after the last one. -/
theorem C7_release_notes (E : Env) (ctx : Context) (w w2 : World) (kept : List String)
    (hnotes : ctx.ReleaseNotes = "") (hsnap : ctx.Snapshot = false)
    (hfetch : (getChangelog E ctx.CurrentTag w).1.2 = none)
    (hloop : excludeLoop E ctx.Exclude
        (strings.Split (getChangelog E ctx.CurrentTag w).1.1 '\n')
        (getChangelog E ctx.CurrentTag w).2 = (.ok kept, w2)) :
    Pipe.Run E ctx w
      = (none, { ctx with ReleaseNotes := "## Changelog\n\n" ++ strings.Join kept "\n" }, w2)
    ∧ (strings.Join kept "\n").data = List.intercalate ['\n'] (kept.map String.data)
    ∧ "## Changelog\n\n" ++ strings.Join ["a1 msg one", "b2 msg two"] "\n"
        = "## Changelog\n\na1 msg one\nb2 msg two" := by
  refine ⟨?_, strings.Join_data kept "\n", by decide⟩
  unfold Pipe.Run
  simp [hnotes, hsnap, hfetch, hloop, header]

/-- C7 at the first release of the sample repository, whose log has the two
entries `a1 msg one` and `b2 msg two`. -/
theorem C7_release_notes_witness :
    (firstCtx.ReleaseNotes = "" ∧ firstCtx.Snapshot = false
      ∧ (getChangelog sampleEnv firstCtx.CurrentTag World.init).1.2 = none)
    ∧ (Pipe.Run sampleEnv firstCtx World.init).2.1.ReleaseNotes
        = "## Changelog\n\na1 msg one\nb2 msg two" :=
  ⟨⟨rfl, rfl, rfl⟩,
    (congrArg (fun r => r.2.1.ReleaseNotes)
      (C7_release_notes sampleEnv firstCtx World.init
        (getChangelog sampleEnv firstCtx.CurrentTag World.init).2
        ["a1 msg one", "b2 msg two"] rfl rfl rfl rfl).1 : _)⟩

/-- C8 amended: when the list of exclusion patterns contains a pattern that
does not compile, wherever it stands, a `Run` that is not skipped and fetched
the log fails, and the error it returns is the compile error of the first
such pattern, exactly as `regexp.Compile` returned it: the patterns before it
compile, it is the last pattern handed to `regexp.Compile`, and the context
is left as it was.  Nothing is said about the text of that error. -/
theorem C8_invalid_pattern (E : Env) (ctx : Context) (w : World)
    (hnotes : ctx.ReleaseNotes = "") (hsnap : ctx.Snapshot = false)
    (hfetch : (getChangelog E ctx.CurrentTag w).1.2 = none)
    (hbad : ∃ p ∈ ctx.Exclude, ∃ msg, E.re.Compile p = .error msg) :
    ∃ pre bad post msg,
      ctx.Exclude = pre ++ bad :: post
      ∧ (∀ p ∈ pre, ∃ r, E.re.Compile p = .ok r)
      ∧ E.re.Compile bad = .error msg
      ∧ (Pipe.Run E ctx w).1 = some (Error.regexp msg)
      ∧ (Pipe.Run E ctx w).2.1 = ctx
      ∧ (Pipe.Run E ctx w).2.2.compiles
          = (getChangelog E ctx.CurrentTag w).2.compiles ++ pre ++ [bad] := by
  obtain ⟨pre, bad, post, msg, hsplit, hpre, hcomp⟩ := first_invalid E ctx.Exclude hbad
  refine ⟨pre, bad, post, msg, hsplit, hpre, hcomp, ?_⟩
  have hloop := excludeLoop_error E pre bad post msg hpre hcomp
    (strings.Split (getChangelog E ctx.CurrentTag w).1.1 '\n')
    (getChangelog E ctx.CurrentTag w).2
  rw [← hsplit] at hloop
  unfold Pipe.Run
  simp [hnotes, hsnap, hfetch, hloop]

/-- C8 at the first release of the sample repository with the patterns
`one`, `(`, `two`: the error is the one of `(`. -/
theorem C8_invalid_pattern_witness :
    (badCtx.ReleaseNotes = "" ∧ badCtx.Snapshot = false
      ∧ (getChangelog sampleEnv badCtx.CurrentTag World.init).1.2 = none
      ∧ sampleEnv.re.Compile "(" = .error "error parsing regexp: missing closing ): `(`")
    ∧ ∃ pre bad post msg,
      badCtx.Exclude = pre ++ bad :: post
      ∧ (∀ p ∈ pre, ∃ r, sampleEnv.re.Compile p = .ok r)
      ∧ sampleEnv.re.Compile bad = .error msg
      ∧ (Pipe.Run sampleEnv badCtx World.init).1 = some (Error.regexp msg)
      ∧ (Pipe.Run sampleEnv badCtx World.init).2.1 = badCtx
      ∧ (Pipe.Run sampleEnv badCtx World.init).2.2.compiles
          = (getChangelog sampleEnv badCtx.CurrentTag World.init).2.compiles ++ pre ++ [bad] :=
  ⟨⟨rfl, rfl, rfl, rfl⟩,
    C8_invalid_pattern sampleEnv badCtx World.init rfl rfl rfl
      ⟨"(", by decide, "error parsing regexp: missing closing ): `(`", rfl⟩⟩

/-- C8, as the specification states it, fails in its last clause: for the
pattern `a**` a `Run` that is not skipped and fetched the log fails with the
compile error of that pattern, but the error does not name the pattern; it
quotes `**` only and is the very error the pattern `b**` gives. -/
theorem C8_counterexample :
    (nestedStarCtx.ReleaseNotes = "" ∧ nestedStarCtx.Snapshot = false
      ∧ (getChangelog sampleEnv nestedStarCtx.CurrentTag World.init).1.2 = none
      ∧ sampleEnv.re.Compile "a**" = .error nestedStarMsg)
    ∧ (Pipe.Run sampleEnv nestedStarCtx World.init).1 = some (Error.regexp nestedStarMsg)
    ∧ (¬ ∃ msg, (Pipe.Run sampleEnv nestedStarCtx World.init).1 = some (Error.regexp msg)
          ∧ names msg "a**" = true)
    ∧ (Pipe.Run sampleEnv { nestedStarCtx with Exclude := ["b**"] } World.init).1
        = (Pipe.Run sampleEnv nestedStarCtx World.init).1 := by
  have hrun : (Pipe.Run sampleEnv nestedStarCtx World.init).1
      = some (Error.regexp nestedStarMsg) := rfl
  refine ⟨⟨rfl, rfl, rfl, rfl⟩, hrun, ?_, rfl⟩
  rintro ⟨msg, hmsg, hnames⟩
  rw [hrun] at hmsg
  have hm : nestedStarMsg = msg := by
    simpa using hmsg
  subst hm
  revert hnames
  decide

/-- C9: whenever `Run` returns something other than success the context, and
with it the release notes, is exactly what it was before the call; when `Run`
succeeds every exclusion pattern compiled and the release notes are the
header followed by all entries of the log that none of the patterns
excludes. -/
theorem C9_notes_only_on_success (E : Env) (ctx : Context) (w : World) :
    ((Pipe.Run E ctx w).1 ≠ none → (Pipe.Run E ctx w).2.1 = ctx)
    ∧ ((Pipe.Run E ctx w).1 = none →
        ∃ rs, List.Forall₂ (fun p r => E.re.Compile p = .ok r) ctx.Exclude rs
          ∧ (getChangelog E ctx.CurrentTag w).1.2 = none
          ∧ (Pipe.Run E ctx w).2.1
              = { ctx with ReleaseNotes :=
                    (header ++ strings.Join
                      (keptBy E rs (strings.Split (getChangelog E ctx.CurrentTag w).1.1 '\n'))
                      "\n") }) := by
  by_cases hnotes : ctx.ReleaseNotes = ""
  swap
  · simp [Pipe.Run, hnotes]
  cases hsnap : ctx.Snapshot
  swap
  · simp [Pipe.Run, hnotes, hsnap]
  cases hfetch : (getChangelog E ctx.CurrentTag w).1.2 with
  | some err => simp [Pipe.Run, hnotes, hsnap, hfetch]
  | none =>
    rcases compile_all_or_invalid E ctx.Exclude with ⟨rs, hrs⟩ | hbad
    · have hloop := excludeLoop_ok E ctx.Exclude rs hrs
        (strings.Split (getChangelog E ctx.CurrentTag w).1.1 '\n')
        (getChangelog E ctx.CurrentTag w).2
      constructor
      · simp [Pipe.Run, hnotes, hsnap, hfetch, hloop]
      · intro _
        refine ⟨rs, hrs, rfl, ?_⟩
        simp [Pipe.Run, hnotes, hsnap, hfetch, hloop]
    · obtain ⟨pre, bad, post, msg, hsplit, hpre, hcomp⟩ := first_invalid E ctx.Exclude hbad
      have hloop := excludeLoop_error E pre bad post msg hpre hcomp
        (strings.Split (getChangelog E ctx.CurrentTag w).1.1 '\n')
        (getChangelog E ctx.CurrentTag w).2
      rw [← hsplit] at hloop
      simp [Pipe.Run, hnotes, hsnap, hfetch, hloop]

/-- C10: when release notes were supplied beforehand or the build is a
snapshot, `Run` returns the value of `pipeline.Skip` with the matching
reason, which is neither success nor a failure, leaves the context alone and
makes no call: no query is issued and no pattern is compiled. -/
theorem C10_skip (E : Env) (ctx : Context) (w : World)
    (h : ctx.ReleaseNotes ≠ "" ∨ ctx.Snapshot = true) :
    Pipe.Run E ctx w
      = (some (pipeline.Skip
            (if ctx.ReleaseNotes ≠ "" then "release notes already provided via --release-notes"
             else "not available for snapshots")), ctx, w)
    ∧ (Pipe.Run E ctx w).1 ≠ none
    ∧ (∀ msg, (Pipe.Run E ctx w).1 ≠ some (Error.git msg)
        ∧ (Pipe.Run E ctx w).1 ≠ some (Error.regexp msg))
    ∧ (Pipe.Run E ctx w).2.2.queries = w.queries
    ∧ (Pipe.Run E ctx w).2.2.compiles = w.compiles := by
  have hrun : Pipe.Run E ctx w
      = (some (pipeline.Skip
            (if ctx.ReleaseNotes ≠ "" then "release notes already provided via --release-notes"
             else "not available for snapshots")), ctx, w) := by
    by_cases hnotes : ctx.ReleaseNotes = ""
    · have hsnap : ctx.Snapshot = true := by
        rcases h with h | h
        · exact absurd hnotes h
        · exact h
      simp [Pipe.Run, hnotes, hsnap]
    · simp [Pipe.Run, hnotes]
  refine ⟨hrun, ?_⟩
  rw [hrun]
  simp [pipeline.Skip]

/-- C10 at a context with release notes and a pattern that would not
compile. -/
theorem C10_skip_witness :
    (notedCtx.ReleaseNotes ≠ "" ∨ notedCtx.Snapshot = true)
    ∧ Pipe.Run sampleEnv notedCtx World.init
        = (some (Error.skip "release notes already provided via --release-notes"),
           notedCtx, World.init) :=
  ⟨Or.inl (by decide), (C10_skip sampleEnv notedCtx World.init (Or.inl (by decide))).1⟩

/-! ## Further helper lemmas -/

namespace strings

/-- Joining the fragments of `splitChars` with the separator gives the text
back. -/
theorem intercalate_splitChars (sep : Char) (l : List Char) :
    List.intercalate [sep] (splitChars sep l) = l := by
  induction l with
  | nil => simp [splitChars, List.intercalate]
  | cons c cs ih =>
    unfold splitChars
    split
    · next hc =>
      rcases hsp : splitChars sep cs with _ | ⟨x, xs⟩
      · exact absurd hsp (splitChars_ne_nil sep cs)
      · rw [hsp] at ih
        simp only [List.intercalate, List.intersperse, List.flatten_cons, List.nil_append,
          List.singleton_append] at ih ⊢
        rw [ih, hc]
    · split
      · next h => exact absurd h (splitChars_ne_nil sep cs)
      · next x xs h =>
        rw [h] at ih
        cases xs with
        | nil =>
          simp only [List.intercalate, List.intersperse, List.flatten_cons, List.flatten_nil,
            List.append_nil] at ih ⊢
          rw [ih]
        | cons y ys =>
          simp only [List.intercalate, List.intersperse, List.flatten_cons,
            List.cons_append] at ih ⊢
          rw [ih]

/-- The Go identity `strings.Join(strings.Split(s, sep), sep) == s`. -/
theorem Join_Split (s : String) (sep : Char) : Join (Split s sep) (String.mk [sep]) = s := by
  apply String.ext
  rw [Join_data]
  unfold Split
  rw [List.map_map]
  have hid : (String.data ∘ String.mk) = (id : List Char → List Char) := rfl
  rw [hid, List.map_id]
  exact intercalate_splitChars sep s.data

end strings

/-- Neither `previous` nor `gitLog` compiles a pattern. -/
theorem getChangelog_compiles (E : Env) (tag : String) (w : World) :
    (getChangelog E tag w).2.compiles = w.compiles := by
  unfold getChangelog previous gitLog gitRun
  simp only []
  cases (E.git.Clean (E.git.Run ["describe", "--tags", "--abbrev=0", tag ++ "^"])).2 with
  | none => simp
  | some e1 =>
    cases (E.git.Clean (E.git.Run ["rev-list", "--max-parents=0", "HEAD"])).2 with
    | none => simp
    | some e2 => simp

theorem remove_sublist (E : Env) (filter : E.re.Regexp) (entries : List String) :
    (remove E filter entries).Sublist entries := by
  rw [remove_eq_filter]
  exact List.filter_sublist _

theorem excludeLoop_sublist (E : Env) (pats : List String) (entries kept : List String)
    (w w2 : World) (h : excludeLoop E pats entries w = (.ok kept, w2)) :
    kept.Sublist entries := by
  induction pats generalizing entries w with
  | nil =>
    simp only [excludeLoop, Prod.mk.injEq, Except.ok.injEq] at h
    rw [← h.1]
  | cons p ps ih =>
    unfold excludeLoop regexpCompile at h
    cases hp : E.re.Compile p with
    | error msg => simp [hp] at h
    | ok r =>
      simp only [hp] at h
      exact (ih _ _ h).trans (remove_sublist E r entries)

/-! ## Empty pattern list, order, and failures of the adapter -/

/-- C11: with an empty list of exclusion patterns a `Run` that is not skipped
and fetched the log keeps every entry in its order (the loop returns the
entries split from the log), compiles nothing, and writes as release notes
the header followed by the log text unchanged, because joining the split
lines with a newline gives the log back. -/
theorem C11_no_patterns (E : Env) (ctx : Context) (w : World) (log : String)
    (hnotes : ctx.ReleaseNotes = "") (hsnap : ctx.Snapshot = false)
    (hpats : ctx.Exclude = [])
    (hlog : (getChangelog E ctx.CurrentTag w).1 = (log, none)) :
    excludeLoop E ctx.Exclude (strings.Split log '\n') (getChangelog E ctx.CurrentTag w).2
        = (.ok (strings.Split log '\n'), (getChangelog E ctx.CurrentTag w).2)
    ∧ strings.Join (strings.Split log '\n') "\n" = log
    ∧ Pipe.Run E ctx w
        = (none, { ctx with ReleaseNotes := "## Changelog\n\n" ++ log },
           (getChangelog E ctx.CurrentTag w).2) := by
  have h1 : (getChangelog E ctx.CurrentTag w).1.1 = log := by rw [hlog]
  have h2 : (getChangelog E ctx.CurrentTag w).1.2 = none := by rw [hlog]
  have hjoin : strings.Join (strings.Split log '\n') "\n" = log := strings.Join_Split log '\n'
  refine ⟨by rw [hpats]; rfl, hjoin, ?_⟩
  unfold Pipe.Run
  simp [hnotes, hsnap, hpats, h1, h2, excludeLoop, hjoin, header]

/-- C11 at the sample release without patterns. -/
theorem C11_no_patterns_witness :
    (noPatternCtx.ReleaseNotes = "" ∧ noPatternCtx.Snapshot = false
      ∧ noPatternCtx.Exclude = []
      ∧ (getChangelog sampleEnv noPatternCtx.CurrentTag World.init).1 = (sampleLog, none))
    ∧ (Pipe.Run sampleEnv noPatternCtx World.init).2.1.ReleaseNotes
        = "## Changelog\n\naaa111 feat: add X\nbbb222 WIP: tmp" :=
  ⟨⟨rfl, rfl, rfl, rfl⟩,
    (congrArg (fun r => r.2.1.ReleaseNotes)
      (C11_no_patterns sampleEnv noPatternCtx World.init sampleLog rfl rfl rfl rfl).2.2 : _)⟩

/-- C12: the result of `remove` is a sublist of its input (every kept entry
is an entry of the input, none is altered or duplicated, and the kept
entries stand in the order of the input), and so is the list of entries the
whole loop over the patterns leaves. -/
theorem C12_order_preserved (E : Env) (filter : E.re.Regexp) (pats entries : List String)
    (w : World) :
    (remove E filter entries).Sublist entries
    ∧ ∀ kept w2, excludeLoop E pats entries w = (.ok kept, w2) → kept.Sublist entries :=
  ⟨remove_sublist E filter entries, fun kept w2 h => excludeLoop_sublist E pats entries kept w w2 h⟩

/-- C13: when the reference was resolved and the log query fails, the error
of `getChangelog` is the error of the adapter, unchanged, and its text is
the text the adapter returned with the error, which is empty for an adapter
that returns either text or a failure; a `Run` that is not skipped returns
that same error, leaves the context alone and compiles no pattern. -/
theorem C13_fetch_failure (E : Env) (ctx : Context) (w : World) (prev : ref) (e : String)
    (hnotes : ctx.ReleaseNotes = "") (hsnap : ctx.Snapshot = false)
    (hprev : (previous E ctx.CurrentTag w).1 = (prev, none))
    (hfail : (E.git.Run (logArgs (if prev.Tag then [prev.SHA ++ ".." ++ ctx.CurrentTag]
        else [prev.SHA, ctx.CurrentTag]))).2 = some e) :
    (getChangelog E ctx.CurrentTag w).1.2 = some (Error.git e)
    ∧ (E.git.TextOrFailure → (getChangelog E ctx.CurrentTag w).1 = ("", some (Error.git e)))
    ∧ Pipe.Run E ctx w = (some (Error.git e), ctx, (getChangelog E ctx.CurrentTag w).2)
    ∧ (Pipe.Run E ctx w).2.2.compiles = w.compiles := by
  have h1 : (previous E ctx.CurrentTag w).1.1 = prev := by rw [hprev]
  have h2 : (previous E ctx.CurrentTag w).1.2 = none := by rw [hprev]
  have hget : (getChangelog E ctx.CurrentTag w).1
      = ((E.git.Run (logArgs (if prev.Tag then [prev.SHA ++ ".." ++ ctx.CurrentTag]
            else [prev.SHA, ctx.CurrentTag]))).1, some (Error.git e)) := by
    unfold getChangelog
    simp only [h1, h2]
    cases hT : prev.Tag <;> simp [hT] at hfail <;> simp [gitLog, gitRun, logArgs] at hfail ⊢ <;>
      simp [hfail]
  have herr : (getChangelog E ctx.CurrentTag w).1.2 = some (Error.git e) := by rw [hget]
  have hrun : Pipe.Run E ctx w
      = (some (Error.git e), ctx, (getChangelog E ctx.CurrentTag w).2) := by
    unfold Pipe.Run
    simp [hnotes, hsnap, herr]
  refine ⟨herr, ?_, hrun, ?_⟩
  · intro hcontract
    rw [hget]
    have := hcontract _ (by rw [hfail]; simp)
    rw [this]
  · rw [hrun]
    exact getChangelog_compiles E ctx.CurrentTag w

/-- C13 at a repository whose log query fails. -/
theorem C13_fetch_failure_witness :
    (sampleCtx.ReleaseNotes = "" ∧ sampleCtx.Snapshot = false
      ∧ (previous brokenLogEnv sampleCtx.CurrentTag World.init).1
          = ({ Tag := true, SHA := "v1.1.0" }, none)
      ∧ brokenLogEnv.git.TextOrFailure)
    ∧ (getChangelog brokenLogEnv sampleCtx.CurrentTag World.init).1
        = ("", some (Error.git "fatal: bad revision\n"))
    ∧ Pipe.Run brokenLogEnv sampleCtx World.init
        = (some (Error.git "fatal: bad revision\n"), sampleCtx,
           { queries := [describeArgs "v1.2.0", logArgs ["v1.1.0..v1.2.0"]], compiles := [] }) :=
  have hcontract : brokenLogEnv.git.TextOrFailure := by
    intro args _
    show (brokenLogGit.Run args).1 = ""
    unfold brokenLogGit
    simp only []
    split
    · next h => simp_all [brokenLogEnv, brokenLogGit]
    · rfl
  have hthm := C13_fetch_failure brokenLogEnv sampleCtx World.init
    { Tag := true, SHA := "v1.1.0" } "fatal: bad revision\n" rfl rfl rfl rfl
  ⟨⟨rfl, rfl, rfl, hcontract⟩, hthm.2.1 hcontract, hthm.2.2.1⟩

/-- C14: when the prior-tag lookup and the root-commit query both fail,
`previous` returns the error of the root-commit query, `getChangelog` returns
that error with empty text and issues no further query (so no log query), and
a `Run` that is not skipped returns that error and leaves the context
alone. -/
theorem C14_resolution_failure (E : Env) (ctx : Context) (w : World) (e1 e2 : String)
    (hnotes : ctx.ReleaseNotes = "") (hsnap : ctx.Snapshot = false)
    (h1 : (E.git.Clean (E.git.Run (describeArgs ctx.CurrentTag))).2 = some e1)
    (h2 : (E.git.Clean (E.git.Run rootArgs)).2 = some e2) :
    (previous E ctx.CurrentTag w).1.2 = some (Error.git e2)
    ∧ getChangelog E ctx.CurrentTag w
        = (("", some (Error.git e2)),
           { w with queries := w.queries ++ [describeArgs ctx.CurrentTag, rootArgs] })
    ∧ (∀ refs, logArgs refs ∉ (getChangelog E ctx.CurrentTag w).2.queries.drop w.queries.length)
    ∧ Pipe.Run E ctx w
        = (some (Error.git e2), ctx,
           { w with queries := w.queries ++ [describeArgs ctx.CurrentTag, rootArgs] }) := by
  have hp : previous E ctx.CurrentTag w
      = (({ Tag := false, SHA := (E.git.Clean (E.git.Run rootArgs)).1 }, some (Error.git e2)),
         { w with queries := w.queries ++ [describeArgs ctx.CurrentTag, rootArgs] }) := by
    unfold describeArgs at h1 ⊢
    unfold rootArgs at h2 ⊢
    unfold previous gitRun
    simp [h1, h2]
  have hg : getChangelog E ctx.CurrentTag w
      = (("", some (Error.git e2)),
         { w with queries := w.queries ++ [describeArgs ctx.CurrentTag, rootArgs] }) := by
    unfold getChangelog
    simp [hp]
  refine ⟨by rw [hp], hg, ?_, ?_⟩
  · intro refs
    rw [hg]
    simp [describeArgs, rootArgs, logArgs]
  · unfold Pipe.Run
    simp [hnotes, hsnap, hg]

/-- C14 outside of any repository. -/
theorem C14_resolution_failure_witness :
    (sampleCtx.ReleaseNotes = "" ∧ sampleCtx.Snapshot = false
      ∧ (noRepoEnv.git.Clean (noRepoEnv.git.Run (describeArgs sampleCtx.CurrentTag))).2
          = some "fatal: not a git repository\n"
      ∧ (noRepoEnv.git.Clean (noRepoEnv.git.Run rootArgs)).2
          = some "fatal: not a git repository\n")
    ∧ Pipe.Run noRepoEnv sampleCtx World.init
        = (some (Error.git "fatal: not a git repository\n"), sampleCtx,
           { queries := [describeArgs "v1.2.0", rootArgs], compiles := [] }) :=
  ⟨⟨rfl, rfl, rfl, rfl⟩,
    (C14_resolution_failure noRepoEnv sampleCtx World.init "fatal: not a git repository\n"
      "fatal: not a git repository\n" rfl rfl rfl rfl).2.2.2⟩

/-! ## Empty result, the scenario, and validation order -/

/-- A loop that ends without error compiled every pattern. -/
theorem excludeLoop_ok_inv (E : Env) (pats entries kept : List String) (w w2 : World)
    (h : excludeLoop E pats entries w = (.ok kept, w2)) :
    ∃ rs, List.Forall₂ (fun p r => E.re.Compile p = .ok r) pats rs
      ∧ kept = keptBy E rs entries := by
  rcases compile_all_or_invalid E pats with ⟨rs, hrs⟩ | hbad
  · refine ⟨rs, hrs, ?_⟩
    rw [excludeLoop_ok E pats rs hrs entries w] at h
    simp only [Prod.mk.injEq, Except.ok.injEq] at h
    exact h.1.symm
  · obtain ⟨pre, bad, post, msg, hsplit, hpre, hcomp⟩ := first_invalid E pats hbad
    rw [hsplit, excludeLoop_error E pre bad post msg hpre hcomp entries w] at h
    simp at h

/-- The loop of `Run` computes what validation followed by application
computes. -/
theorem excludeLoop_eq_validate (E : Env) (pats entries : List String) (w : World) :
    excludeLoop E pats entries w
      = match validateAll E pats w with
        | (.error err, w2) => (.error err, w2)
        | (.ok rs, w2) => (.ok (applyAll E rs entries), w2) := by
  induction pats generalizing entries w with
  | nil => simp [excludeLoop, validateAll, applyAll]
  | cons p ps ih =>
    unfold excludeLoop validateAll regexpCompile
    cases hp : E.re.Compile p with
    | error msg => simp
    | ok r =>
      simp only []
      rw [ih]
      rcases hv : validateAll E ps { queries := w.queries, compiles := w.compiles ++ [p] }
        with ⟨res, w2⟩
      cases res with
      | error err => simp
      | ok rs => simp [applyAll]

/-- C15: when the loop of a `Run` that is not skipped and fetched the log
leaves no entry, `Run` succeeds and the release notes are the header
`## Changelog` and an empty line with nothing after them; every entry of the
log was then matched by one of the patterns. -/
theorem C15_empty_body (E : Env) (ctx : Context) (w w2 : World)
    (hnotes : ctx.ReleaseNotes = "") (hsnap : ctx.Snapshot = false)
    (hfetch : (getChangelog E ctx.CurrentTag w).1.2 = none)
    (hloop : excludeLoop E ctx.Exclude
        (strings.Split (getChangelog E ctx.CurrentTag w).1.1 '\n')
        (getChangelog E ctx.CurrentTag w).2 = (.ok [], w2)) :
    Pipe.Run E ctx w = (none, { ctx with ReleaseNotes := "## Changelog\n\n" }, w2)
    ∧ ∃ rs, List.Forall₂ (fun p r => E.re.Compile p = .ok r) ctx.Exclude rs
        ∧ ∀ e ∈ strings.Split (getChangelog E ctx.CurrentTag w).1.1 '\n',
            ∃ r ∈ rs, E.re.MatchString r (remainder e) = true := by
  constructor
  · unfold Pipe.Run
    simp only [hnotes, hsnap, hfetch, hloop]
    simp [header, strings.Join]
  · obtain ⟨rs, hrs, hkept⟩ := excludeLoop_ok_inv E _ _ _ _ _ hloop
    refine ⟨rs, hrs, ?_⟩
    intro e he
    have hnot : e ∉ keptBy E rs (strings.Split (getChangelog E ctx.CurrentTag w).1.1 '\n') := by
      rw [← hkept]; simp
    simp only [keptBy, List.mem_filter, he, true_and, List.all_eq_true] at hnot
    by_contra hcon
    apply hnot
    intro r hr
    cases hm : E.re.MatchString r (remainder e) with
    | false => rfl
    | true => exact absurd ⟨r, hr, hm⟩ hcon

/-- C15 at the sample release with the patterns `feat` and `^WIP`. -/
theorem C15_empty_body_witness :
    (allExcludedCtx.ReleaseNotes = "" ∧ allExcludedCtx.Snapshot = false
      ∧ (getChangelog sampleEnv allExcludedCtx.CurrentTag World.init).1.2 = none)
    ∧ Pipe.Run sampleEnv allExcludedCtx World.init
        = (none, { allExcludedCtx with ReleaseNotes := "## Changelog\n\n" },
           { queries := [describeArgs "v1.2.0", logArgs ["v1.1.0..v1.2.0"]],
             compiles := ["feat", "^WIP"] }) :=
  ⟨⟨rfl, rfl, rfl⟩,
    (C15_empty_body sampleEnv allExcludedCtx World.init
      { queries := [describeArgs "v1.2.0", logArgs ["v1.1.0..v1.2.0"]],
        compiles := ["feat", "^WIP"] } rfl rfl rfl rfl).1⟩

/-- C16: for the tag `v1.2.0`, an adapter that resolves the prior tag
`v1.1.0` and answers the log query for `v1.1.0..v1.2.0` with the two lines
`aaa111 feat: add X` and `bbb222 WIP: tmp`, no release notes supplied, no
snapshot, and the single pattern `^WIP`, `Run` succeeds and sets the release
notes to the header followed by `aaa111 feat: add X`. -/
theorem C16_scenario (g : GitLib) (w : World)
    (hprev : g.Clean (g.Run (describeArgs "v1.2.0")) = ("v1.1.0", none))
    (hlog : g.Run (logArgs ["v1.1.0..v1.2.0"])
        = ("aaa111 feat: add X\nbbb222 WIP: tmp", none)) :
    Pipe.Run { re := goRegexp, git := g } sampleCtx w
      = (none,
         { sampleCtx with ReleaseNotes := "## Changelog\n\naaa111 feat: add X" },
         { queries := w.queries ++ [describeArgs "v1.2.0", logArgs ["v1.1.0..v1.2.0"]],
           compiles := w.compiles ++ ["^WIP"] }) := by
  have hp : previous { re := goRegexp, git := g } "v1.2.0" w
      = (({ Tag := true, SHA := "v1.1.0" }, none),
         { w with queries := w.queries ++ [describeArgs "v1.2.0"] }) := by
    have hprev1 : g.Clean (g.Run ["describe", "--tags", "--abbrev=0", "v1.2.0^"])
        = ("v1.1.0", none) := hprev
    unfold previous gitRun
    simp [describeArgs, hprev1]
  have hcat : ("v1.1.0" : String) ++ ".." ++ "v1.2.0" = "v1.1.0..v1.2.0" := by decide
  have hg : getChangelog { re := goRegexp, git := g } "v1.2.0" w
      = (("aaa111 feat: add X\nbbb222 WIP: tmp", none),
         { w with queries := w.queries
            ++ [describeArgs "v1.2.0", logArgs ["v1.1.0..v1.2.0"]] }) := by
    have hlog1 : g.Run ["log", "--pretty=oneline", "--abbrev-commit", "v1.1.0..v1.2.0"]
        = ("aaa111 feat: add X\nbbb222 WIP: tmp", none) := hlog
    unfold getChangelog
    simp only [hp]
    simp [gitLog, gitRun, logArgs, hcat, hlog1]
  have hloop : ∀ w1 : World,
      excludeLoop { re := goRegexp, git := g } ["^WIP"]
          (strings.Split "aaa111 feat: add X\nbbb222 WIP: tmp" '\n') w1
        = (.ok ["aaa111 feat: add X"],
           { queries := w1.queries, compiles := w1.compiles ++ ["^WIP"] }) := by
    intro w1
    rfl
  have hjoin : header ++ strings.Join ["aaa111 feat: add X"] "\n"
      = "## Changelog\n\naaa111 feat: add X" := by decide
  unfold Pipe.Run
  simp [sampleCtx, hg, hloop, hjoin]

/-- C16 at the sample repository. -/
theorem C16_scenario_witness :
    (sampleGit.Clean (sampleGit.Run (describeArgs "v1.2.0")) = ("v1.1.0", none)
      ∧ sampleGit.Run (logArgs ["v1.1.0..v1.2.0"])
          = ("aaa111 feat: add X\nbbb222 WIP: tmp", none))
    ∧ Pipe.Run { re := goRegexp, git := sampleGit } sampleCtx World.init
        = (none,
           { sampleCtx with ReleaseNotes := "## Changelog\n\naaa111 feat: add X" },
           { queries := World.init.queries
               ++ [describeArgs "v1.2.0", logArgs ["v1.1.0..v1.2.0"]],
             compiles := World.init.compiles ++ ["^WIP"] }) :=
  ⟨⟨rfl, rfl⟩, C16_scenario sampleGit World.init rfl rfl⟩

/-- C17: whatever the adapter answers and whatever the exclusion patterns
are, `Run` returns the same value, leaves the same context (so the same
release notes) and makes the same calls as the variant that first compiles
every pattern, aborting at the first compile error, and only then applies
the exclusions. -/
theorem C17_validate_first (E : Env) (ctx : Context) (w : World) :
    Pipe.Run E ctx w = Pipe.RunValidateFirst E ctx w := by
  unfold Pipe.Run Pipe.RunValidateFirst
  by_cases hnotes : ctx.ReleaseNotes = ""
  swap
  · simp [hnotes]
  cases hsnap : ctx.Snapshot
  swap
  · simp [hnotes]
  cases hfetch : (getChangelog E ctx.CurrentTag w).1.2 with
  | some err => simp [hnotes, hfetch]
  | none =>
    simp only [hnotes, hfetch, excludeLoop_eq_validate]
    rcases hv : validateAll E ctx.Exclude (getChangelog E ctx.CurrentTag w).2 with ⟨res, w2⟩
    cases res with
    | error err => simp
    | ok rs => simp

/-! ## Totality of `match`, order of the patterns, and a second `Run` -/

theorem remove_comm (E : Env) (f g : E.re.Regexp) (entries : List String) :
    remove E f (remove E g entries) = remove E g (remove E f entries) := by
  simp only [remove_eq_filter, List.filter_filter]
  exact List.filter_congr (fun e _ => Bool.and_comm _ _)

theorem remove_idem (E : Env) (f : E.re.Regexp) (entries : List String) :
    remove E f (remove E f entries) = remove E f entries := by
  simp only [remove_eq_filter, List.filter_filter]
  exact List.filter_congr (fun e _ => Bool.and_self _)

/-- A test holds for all compiled expressions exactly when it holds for the
compiled form of every pattern. -/
theorem all_compiled_iff (E : Env) (P : E.re.Regexp → Bool) (pats : List String)
    (rs : List E.re.Regexp)
    (hc : List.Forall₂ (fun p r => E.re.Compile p = .ok r) pats rs) :
    rs.all P = true ↔ ∀ p ∈ pats, ∀ r, E.re.Compile p = .ok r → P r = true := by
  induction hc with
  | nil => simp
  | cons hpr _ ih =>
    rename_i p r ps rs1 _
    rw [List.all_cons, Bool.and_eq_true, ih]
    constructor
    · rintro ⟨hr, htail⟩ q hq r1 hr1
      rcases List.mem_cons.mp hq with h1 | h1
      · subst h1
        rw [hpr] at hr1
        cases hr1
        exact hr
      · exact htail q h1 r1 hr1
    · intro hall
      exact ⟨hall p (List.mem_cons_self _ _) r hpr,
        fun q hq r1 hr1 => hall q (List.mem_cons_of_mem _ hq) r1 hr1⟩

/-- Pattern lists with the same members keep the same entries. -/
theorem keptBy_congr (E : Env) (pats1 pats2 : List String) (rs1 rs2 : List E.re.Regexp)
    (h1 : List.Forall₂ (fun p r => E.re.Compile p = .ok r) pats1 rs1)
    (h2 : List.Forall₂ (fun p r => E.re.Compile p = .ok r) pats2 rs2)
    (hmem : ∀ p, p ∈ pats1 ↔ p ∈ pats2) (entries : List String) :
    keptBy E rs1 entries = keptBy E rs2 entries := by
  unfold keptBy
  apply List.filter_congr
  intro e _
  rw [Bool.eq_iff_iff, all_compiled_iff E _ pats1 rs1 h1, all_compiled_iff E _ pats2 rs2 h2]
  constructor
  · intro h p hp
    exact h p ((hmem p).mpr hp)
  · intro h p hp
    exact h p ((hmem p).mp hp)

theorem forall2_of_all_compile (E : Env) (pats : List String)
    (h : ∀ p ∈ pats, ∃ r, E.re.Compile p = .ok r) :
    ∃ rs, List.Forall₂ (fun p r => E.re.Compile p = .ok r) pats rs := by
  rcases compile_all_or_invalid E pats with hrs | ⟨p, hp, msg, hmsg⟩
  · exact hrs
  · obtain ⟨r, hr⟩ := h p hp
    rw [hr] at hmsg
    cases hmsg

/-- A `Run` on a context that has release notes. -/
theorem run_of_notes (E : Env) (ctx : Context) (w : World) (h : ctx.ReleaseNotes ≠ "") :
    Pipe.Run E ctx w
      = (some (pipeline.Skip "release notes already provided via --release-notes"), ctx, w) := by
  unfold Pipe.Run
  rw [if_pos h]

/-- What a successful `Run` went through. -/
theorem run_success (E : Env) (ctx : Context) (w : World) (h : (Pipe.Run E ctx w).1 = none) :
    ∃ kept w2, Pipe.Run E ctx w
      = (none, { ctx with ReleaseNotes := header ++ strings.Join kept "\n" }, w2) := by
  by_cases hnotes : ctx.ReleaseNotes = ""
  swap
  · simp [Pipe.Run, hnotes] at h
  cases hsnap : ctx.Snapshot
  swap
  · simp [Pipe.Run, hnotes, hsnap] at h
  cases hfetch : (getChangelog E ctx.CurrentTag w).1.2 with
  | some err => simp [Pipe.Run, hnotes, hsnap, hfetch] at h
  | none =>
    rcases hloop : excludeLoop E ctx.Exclude
      (strings.Split (getChangelog E ctx.CurrentTag w).1.1 '\n')
      (getChangelog E ctx.CurrentTag w).2 with ⟨res, w2⟩
    cases res with
    | error err => simp [Pipe.Run, hnotes, hsnap, hfetch, hloop] at h
    | ok kept =>
      refine ⟨kept, w2, ?_⟩
      simp [Pipe.Run, hnotes, hsnap, hfetch, hloop]

/-- C18: `match` is total.  For every line, the empty line, a line without a
space and a line that begins with a space included, `SplitAfter` returns at
least one fragment, so the slice `[1:]` is within bounds and `match` with the
bounds check made explicit returns a result, the one of `match`. -/
theorem C18_match_total (E : Env) (filter : E.re.Regexp) (line : String) :
    1 ≤ (strings.SplitAfter line ' ').length
    ∧ sliceFrom 1 (strings.SplitAfter line ' ') = some ((strings.SplitAfter line ' ').drop 1)
    ∧ matchChecked E filter line = some (match_ E filter line)
    ∧ strings.SplitAfter "" ' ' = [""]
    ∧ strings.SplitAfter "abc123" ' ' = ["abc123"]
    ∧ strings.SplitAfter " abc" ' ' = [" ", "abc"] := by
  have hlen : 1 ≤ (strings.SplitAfter line ' ').length := by
    unfold strings.SplitAfter
    rw [List.length_map]
    exact List.length_pos.mpr (strings.splitAfterChars_ne_nil ' ' line.data)
  have hslice : sliceFrom 1 (strings.SplitAfter line ' ')
      = some ((strings.SplitAfter line ' ').drop 1) := by
    unfold sliceFrom
    rw [if_pos hlen]
  refine ⟨hlen, hslice, ?_, by decide, by decide, by decide⟩
  unfold matchChecked
  rw [hslice]
  rfl

/-- C19: applying two compiled patterns in either order removes the same
entries, and applying a pattern twice removes what applying it once removes;
hence, when all exclusion patterns compile, the value `Run` returns and the
release notes it leaves are the same for every list with the same patterns,
whatever their order and however often each is repeated. -/
theorem C19_pattern_order (E : Env) (f g : E.re.Regexp) (entries : List String)
    (ctx : Context) (pats : List String) (w : World) :
    remove E f (remove E g entries) = remove E g (remove E f entries)
    ∧ remove E f (remove E f entries) = remove E f entries
    ∧ ((∀ p ∈ ctx.Exclude, ∃ r, E.re.Compile p = .ok r) →
        (∀ p, p ∈ pats ↔ p ∈ ctx.Exclude) →
        (Pipe.Run E { ctx with Exclude := pats } w).1 = (Pipe.Run E ctx w).1
        ∧ (Pipe.Run E { ctx with Exclude := pats } w).2.1.ReleaseNotes
            = (Pipe.Run E ctx w).2.1.ReleaseNotes) := by
  refine ⟨remove_comm E f g entries, remove_idem E f entries, ?_⟩
  intro hcomp hmem
  by_cases hnotes : ctx.ReleaseNotes = ""
  swap
  · simp [Pipe.Run, hnotes]
  cases hsnap : ctx.Snapshot
  swap
  · simp [Pipe.Run, hnotes, hsnap]
  cases hfetch : (getChangelog E ctx.CurrentTag w).1.2 with
  | some err => simp [Pipe.Run, hnotes, hsnap, hfetch]
  | none =>
    obtain ⟨rs1, hrs1⟩ := forall2_of_all_compile E ctx.Exclude hcomp
    obtain ⟨rs2, hrs2⟩ := forall2_of_all_compile E pats
      (fun p hp => hcomp p ((hmem p).mp hp))
    have hk := keptBy_congr E pats ctx.Exclude rs2 rs1 hrs2 hrs1 hmem
      (strings.Split (getChangelog E ctx.CurrentTag w).1.1 '\n')
    have hl1 := excludeLoop_ok E ctx.Exclude rs1 hrs1
      (strings.Split (getChangelog E ctx.CurrentTag w).1.1 '\n')
      (getChangelog E ctx.CurrentTag w).2
    have hl2 := excludeLoop_ok E pats rs2 hrs2
      (strings.Split (getChangelog E ctx.CurrentTag w).1.1 '\n')
      (getChangelog E ctx.CurrentTag w).2
    simp [Pipe.Run, hnotes, hsnap, hfetch, hl1, hl2, hk]

/-- C19 at the sample release: the pattern `^WIP` given twice leaves the same
release notes as the pattern given once. -/
theorem C19_pattern_order_witness :
    (Pipe.Run sampleEnv { sampleCtx with Exclude := ["^WIP", "^WIP"] } World.init).1
        = (Pipe.Run sampleEnv sampleCtx World.init).1
    ∧ (Pipe.Run sampleEnv { sampleCtx with Exclude := ["^WIP", "^WIP"] }
          World.init).2.1.ReleaseNotes
        = (Pipe.Run sampleEnv sampleCtx World.init).2.1.ReleaseNotes :=
  (C19_pattern_order sampleEnv reAnchoredWIP reFeat [] sampleCtx ["^WIP", "^WIP"]
    World.init).2.2
    (fun p hp => by
      have hp1 : p = "^WIP" := by simpa [sampleCtx] using hp
      subst hp1
      exact ⟨reAnchoredWIP, rfl⟩)
    (fun p => by simp [sampleCtx])

/-- C20: after a successful `Run` the release notes are not empty, they
begin with the header `## Changelog` and an empty line; a further `Run` on
the resulting context, whatever the adapter and the calls made so far,
returns the skipped outcome and leaves context and release notes as they
are, without any call. -/
theorem C20_second_run_skips (E : Env) (ctx : Context) (w : World)
    (h : (Pipe.Run E ctx w).1 = none) :
    (Pipe.Run E ctx w).2.1.ReleaseNotes ≠ ""
    ∧ (∃ body, (Pipe.Run E ctx w).2.1.ReleaseNotes = "## Changelog\n\n" ++ body)
    ∧ ∀ (E2 : Env) (w2 : World),
        Pipe.Run E2 (Pipe.Run E ctx w).2.1 w2
          = (some (pipeline.Skip "release notes already provided via --release-notes"),
             (Pipe.Run E ctx w).2.1, w2) := by
  obtain ⟨kept, w1, hrun⟩ := run_success E ctx w h
  have hne : (Pipe.Run E ctx w).2.1.ReleaseNotes ≠ "" := by
    rw [hrun]
    intro heq
    have hlen := congrArg String.length heq
    simp only [String.length_append] at hlen
    have hh : header.length = 14 := by decide
    rw [hh] at hlen
    have h0 : ("" : String).length = 0 := rfl
    omega
  refine ⟨hne, ⟨strings.Join kept "\n", by rw [hrun]; rfl⟩, ?_⟩
  intro E2 w2
  exact run_of_notes E2 (Pipe.Run E ctx w).2.1 w2 hne

/-- C20 at the sample release. -/
theorem C20_second_run_skips_witness :
    (Pipe.Run sampleEnv sampleCtx World.init).1 = none
    ∧ Pipe.Run noRepoEnv (Pipe.Run sampleEnv sampleCtx World.init).2.1 World.init
        = (some (pipeline.Skip "release notes already provided via --release-notes"),
           (Pipe.Run sampleEnv sampleCtx World.init).2.1, World.init) :=
  ⟨rfl, (C20_second_run_skips sampleEnv sampleCtx World.init rfl).2.2 noRepoEnv World.init⟩

end changelog
